import Mathlib

/-!
# Verification of the combo-sdk server core

A shallow embedding of the repository's two correctness-critical components:

* the HTTP request signer/verifier (`signer.go`: `SignHttp`, `AuthHttp`,
  `buildAuthorizationHeader`, `parseAuthorizationHeader`, `buildStringToSign`,
  `computePayloadHash`, `getTimestamp`), and
* the idempotent GM dispatcher and its stores (`gm_idempotency.go`:
  `idempotentGmListener.HandleGmRequest`, `processRequest`,
  `saveIdempotencyRecord`, `previousResponse`, `parseOldRecord`,
  `memoryIdempotencyStore.SetNX` / `SetXX`).

Go strings are modelled as `List Char` (`Str`).  Go's standard-library
collaborators (crypto/sha256, crypto/hmac, encoding/json, uuid generation)
are modelled abstractly where their internals do not matter, and by concrete
executable stand-ins where the dispatcher relies on their round-trip
behaviour.  Machine integers do not occur in the modelled code paths except
as time arithmetic, which is modelled over `Int` seconds.
-/

namespace ComboSdk

/-- Go `string`, modelled as a list of characters. -/
abbrev Str := List Char

/-- The character data of a Lean string literal, used to transcribe the
Go string constants of the source. -/
def str (s : String) : Str := s.data

/-! ## Go string primitives used by the source (package `strings`) -/

/-- `strings.Split(s, sep)` for a one-character separator: splits around
every occurrence of `c`; the result always has one more element than the
number of occurrences of `c`, and `splitOnChar c [] = [[]]`. -/
def splitOnChar (c : Char) : Str → List Str
  | [] => [[]]
  | x :: xs =>
    if x = c then [] :: splitOnChar c xs
    else
      match splitOnChar c xs with
      | [] => [[x]]
      | t :: ts => (x :: t) :: ts

/-- `strings.IndexByte(s, b)`: index of the first occurrence, or `none`
(Go returns `-1`). -/
def indexOfChar (c : Char) : Str → Option Nat
  | [] => none
  | x :: xs =>
    if x = c then some 0
    else (indexOfChar c xs).map (· + 1)

/-- `strings.Trim(s, cutset)`: removes all leading and trailing characters
belonging to `cutset`. -/
def trimChars (cutset : List Char) (l : Str) : Str :=
  ((l.dropWhile (· ∈ cutset)).reverse.dropWhile (· ∈ cutset)).reverse

/-! ## The in-memory idempotency store

`memoryIdempotencyStore` holds a mutex-guarded `map[string]string`.  The map
is modelled as an association list with Go-map update semantics; the mutex
makes each operation atomic, so each operation is a pure state transformer.
-/

/-- The `map[string]string` inside `memoryIdempotencyStore`. -/
abbrev Mem := List (Str × Str)

/-- Go map lookup `s.kv[key]` (first binding wins; the update operation
keeps keys unique). -/
def mapGet : Mem → Str → Option Str
  | [], _ => none
  | (k, v) :: t, key => if k = key then some v else mapGet t key

/-- Go map assignment `s.kv[key] = value`. -/
def mapSet : Mem → Str → Str → Mem
  | [], key, value => [(key, value)]
  | (k, v) :: t, key, value =>
    if k = key then (key, value) :: t else (k, v) :: mapSet t key value

/-- `memoryIdempotencyStore.SetNX`: store the value only if the key does not
exist; return the pre-existing value (empty string when absent).  The Go
method also returns an `error`, which is always `nil`; the error slot is kept
to mirror the `IdempotencyStore` interface. -/
def memSetNX (m : Mem) (key value : Str) : Mem × Str × Option Str :=
  match mapGet m key with
  | some oldValue => (m, oldValue, none)
  | none => (mapSet m key value, [], none)

/-- `memoryIdempotencyStore.SetXX`: overwrite the value only if the key
already exists; otherwise do nothing.  Always returns a `nil` error. -/
def memSetXX (m : Mem) (key value : Str) : Mem × Option Str :=
  match mapGet m key with
  | some _ => (mapSet m key value, none)
  | none => (m, none)

/-! ## GM data model (`gm.go` / `gm_idempotency.go`) -/

/-- `type GmError string` together with its constants.  Only the constants
used by the idempotency layer are transcribed. -/
def GmError_InternalError : Str := str "internal_error"

def GmError_IdempotencyConflict : Str := str "idempotency_conflict"

def GmError_IdempotencyMismatch : Str := str "idempotency_mismatch"

/-- `GmErrorResponse`: error type, human-readable message, uncertainty flag. -/
structure GmErrorResponse where
  error : Str
  message : Str
  uncertain : Bool
deriving DecidableEq, Repr

/-- `GmRequest`: the decoded GM command envelope. -/
structure GmRequest where
  version : Str
  id : Str
  idempotencyKey : Str
  cmd : Str
  args : Str
deriving DecidableEq, Repr

/-- `idempotencyRecord`: the value persisted under an idempotency key.
`resp` is a `json.RawMessage` (a possibly-`nil` byte slice, hence
`Option Str`); `error` is a possibly-`nil` pointer. -/
structure IdempotencyRecord where
  nonce : Str
  key : Str
  id : Str
  cmd : Str
  args : Str
  done : Bool
  resp : Option Str
  error : Option GmErrorResponse
deriving DecidableEq, Repr

/-! ## Record serialization

Models `json.Marshal` / `json.Unmarshal` of `idempotencyRecord` (a Go
standard-library collaborator): an executable injective serialization with a
total round-trip.  `json.Marshal` of this struct never fails and never
produces an empty string; both facts are reproduced by the model
(`decRec_encRec`, `encRec_ne_nil`). -/

/-- Length-prefixed string field: a unary length prefix, a colon, then the
payload. -/
def encStr (s : Str) : Str := List.replicate s.length '#' ++ ':' :: s

/-- Decode one length-prefixed string field, returning the field and the
remaining input. -/
def decStr (l : Str) : Option (Str × Str) :=
  let n := (l.takeWhile (· = '#')).length
  match l.drop n with
  | ':' :: rest => if n ≤ rest.length then some (rest.take n, rest.drop n) else none
  | _ => none

/-- Boolean field. -/
def encBool (b : Bool) : Str := if b then ['T'] else ['F']

def decBool (l : Str) : Option (Bool × Str) :=
  match l with
  | 'T' :: rest => some (true, rest)
  | 'F' :: rest => some (false, rest)
  | _ => none

/-- Optional string field (`nil` vs present `json.RawMessage`). -/
def encOptStr : Option Str → Str
  | none => ['N']
  | some s => 'S' :: encStr s

def decOptStr (l : Str) : Option (Option Str × Str) :=
  match l with
  | 'N' :: rest => some (none, rest)
  | 'S' :: rest => (decStr rest).map (fun p => (some p.1, p.2))
  | _ => none

/-- Optional `GmErrorResponse` field (`nil` vs present pointer). -/
def encOptErr : Option GmErrorResponse → Str
  | none => ['N']
  | some e => 'S' :: (encStr e.error ++ encStr e.message ++ encBool e.uncertain)

def decOptErr (l : Str) : Option (Option GmErrorResponse × Str) :=
  match l with
  | 'N' :: rest => some (none, rest)
  | 'S' :: rest =>
    match decStr rest with
    | none => none
    | some (e, r1) =>
      match decStr r1 with
      | none => none
      | some (msg, r2) =>
        match decBool r2 with
        | none => none
        | some (u, r3) => some (some ⟨e, msg, u⟩, r3)
  | _ => none

/-- `json.Marshal(record)` stand-in: the record's eight fields in order. -/
def encRec (r : IdempotencyRecord) : Str :=
  encStr r.nonce ++ encStr r.key ++ encStr r.id ++ encStr r.cmd ++ encStr r.args ++
    encBool r.done ++ encOptStr r.resp ++ encOptErr r.error

/-- `json.Unmarshal` stand-in: decode the eight fields and require the input
to be exhausted. -/
def decRec (l : Str) : Option IdempotencyRecord :=
  match decStr l with
  | none => none
  | some (nonce, r1) =>
    match decStr r1 with
    | none => none
    | some (key, r2) =>
      match decStr r2 with
      | none => none
      | some (id, r3) =>
        match decStr r3 with
        | none => none
        | some (cmd, r4) =>
          match decStr r4 with
          | none => none
          | some (args, r5) =>
            match decBool r5 with
            | none => none
            | some (done, r6) =>
              match decOptStr r6 with
              | none => none
              | some (resp, r7) =>
                match decOptErr r7 with
                | none => none
                | some (error, r8) =>
                  if r8 = [] then some ⟨nonce, key, id, cmd, args, done, resp, error⟩
                  else none

/-! ## The idempotent dispatcher (`idempotentGmListener`)

The dispatcher talks to an `IdempotencyStore` interface; a store
implementation is a pair of atomic state transformers over some state type
`σ`.  `SetNX` returns the pre-existing value (empty when absent) and an
error; `SetXX` returns an error. -/

structure StoreOps (σ : Type) where
  setNX : σ → Str → Str → σ × Str × Option Str
  setXX : σ → Str → Str → σ × Option Str

/-- The in-memory store as a `StoreOps` over `Mem`. -/
def memStore : StoreOps Mem where
  setNX := memSetNX
  setXX := fun m k v => memSetXX m k v

/-- The value a dispatch returns in Go's `(any, *GmErrorResponse)` pair:
the no-key path passes the executor's response through unchanged
(`value`), the idempotent paths return serialized bytes or `nil`
(`bytes`). -/
inductive DispResp (α : Type) where
  | value : α → DispResp α
  | bytes : Option Str → DispResp α
deriving DecidableEq, Repr

/-- Result of one dispatch: the store state after the call, the returned
response and error, and an instrumentation flag recording whether the
wrapped executor was invoked. -/
structure DispatchOut (σ α : Type) where
  store : σ
  resp : DispResp α
  err : Option GmErrorResponse
  executed : Bool
deriving Repr

/-- The pending record built at lines 121–128 of `HandleGmRequest`. -/
def initialRecord (nonce : Str) (req : GmRequest) : IdempotencyRecord :=
  { nonce := nonce, key := req.idempotencyKey, id := req.id, cmd := req.cmd,
    args := req.args, done := false, resp := none, error := none }

/-- `parseOldRecord`: the empty string means no previous record; otherwise
unmarshal.  `Except` mirrors the `(record, error)` return. -/
def parseOldRecord (s : Str) : Except Unit (Option IdempotencyRecord) :=
  if s = [] then .ok none
  else
    match decRec s with
    | none => .error ()
    | some r => .ok (some r)

/-- `previousResponse`: replay handling for an existing record authored by a
different attempt. -/
def previousResponse (req : GmRequest) (record : IdempotencyRecord) :
    DispResp α × Option GmErrorResponse :=
  if !record.done then
    (.bytes none, some ⟨GmError_IdempotencyConflict,
      str "previous request is not completed", false⟩)
  else if record.cmd ≠ req.cmd then
    (.bytes none, some ⟨GmError_IdempotencyMismatch,
      str "cmd mismatch, expecting " ++ record.cmd ++ str ", got " ++ req.cmd, false⟩)
  else if record.args ≠ req.args then
    (.bytes none, some ⟨GmError_IdempotencyMismatch,
      str "args mismatch, expecting " ++ record.args ++ str ", got " ++ req.args, false⟩)
  else
    (.bytes record.resp, record.error)

section Dispatcher

variable {σ α : Type}

-- The wrapped executor (`cfg.Listener.HandleGmRequest`), modelled as a
-- pure function of the request, and the `json.Marshal` of its `any` response,
-- modelled as a function that returns `none` exactly when marshalling fails
-- (Go discards the error: `respBytes, _ := json.Marshal(resp)`).
variable (exec : GmRequest → α × Option GmErrorResponse)
variable (marshalResp : α → Option Str)

/-- `processRequest` followed by `saveIdempotencyRecord`: execute the wrapped
command, finalize the record, write it back with `SetXX` — ignoring any
`SetXX` error beyond logging it — and return the serialized response and the
executor's error. -/
def processRequest (st : StoreOps σ) (s : σ) (req : GmRequest)
    (record : IdempotencyRecord) : DispatchOut σ α :=
  let (resp, err) := exec req
  let respBytes := marshalResp resp
  let record2 := { record with done := true, resp := respBytes, error := err }
  -- saveIdempotencyRecord: the SetXX error, if any, is only logged.
  let (s2, _errXX) := st.setXX s record2.key (encRec record2)
  ⟨s2, .bytes record2.resp, record2.error, true⟩

/-- The record `saveIdempotencyRecord` persists for a first execution of
`req` claimed with `nonce`. -/
def finalizedRecord (nonce : Str) (req : GmRequest) : IdempotencyRecord :=
  { (initialRecord nonce req) with
    done := true
    resp := marshalResp (exec req).1
    error := (exec req).2 }

/-- `idempotentGmListener.HandleGmRequest`.  The freshly generated uuid is
passed in as `nonce` (its generation never fails in the model, so the
`failed to generate nonce` branch is unreachable); `json.Marshal(record)` of
the pending record never fails in Go (plain strings and a `nil`
`RawMessage`), so that branch is likewise not modelled. -/
def handleGmRequest (st : StoreOps σ) (nonce : Str) (s : σ) (req : GmRequest) :
    DispatchOut σ α :=
  if req.idempotencyKey = [] then
    let (resp, err) := exec req
    ⟨s, .value resp, err, true⟩
  else
    let record := initialRecord nonce req
    let (s1, oldRecordStr, errNX) := st.setNX s req.idempotencyKey (encRec record)
    match errNX with
    | some e =>
      ⟨s1, .bytes none, some ⟨GmError_InternalError,
        str "failed to SetNX idempotency record: " ++ e, false⟩, false⟩
    | none =>
      match parseOldRecord oldRecordStr with
      | .error _ =>
        ⟨s1, .bytes none, some ⟨GmError_InternalError,
          str "failed to unmarshal old idempotency record", false⟩, false⟩
      | .ok oldRecord =>
        -- firstTimeRequest := oldRecord == nil || oldRecord.Nonce == record.Nonce
        if oldRecord = none ∨ oldRecord.map IdempotencyRecord.nonce = some nonce then
          processRequest exec marshalResp st s1 req record
        else
          match oldRecord with
          | some old =>
            let (resp, err) := previousResponse req old
            ⟨s1, resp, err, false⟩
          | none => ⟨s1, .bytes none, none, false⟩  -- unreachable: oldRecord ≠ none here

end Dispatcher

/-! ## Time (package `time`)

The signing protocol uses instants only at second resolution, always
rendered in UTC (`t.UTC().Format("20060102T150405Z")`).  An instant is
modelled as a UTC civil timestamp; differences (`time.Time.Sub` followed by
`Abs`, compared against `maxTimeDiff`) are computed via the standard
days-from-civil-date conversion, in seconds. -/

structure GoTime where
  year : Nat
  month : Nat
  day : Nat
  hour : Nat
  minute : Nat
  second : Nat
deriving DecidableEq, Repr

/-- Go's zero `time.Time`: January 1, year 1, 00:00:00 UTC. -/
def zeroTime : GoTime := ⟨1, 1, 1, 0, 0, 0⟩

def isLeapYear (y : Nat) : Bool :=
  y % 4 = 0 && (y % 100 != 0 || y % 400 = 0)

def daysInMonth (y m : Nat) : Nat :=
  if m = 2 then (if isLeapYear y then 29 else 28)
  else if m = 4 ∨ m = 6 ∨ m = 9 ∨ m = 11 then 30
  else 31

/-- The civil timestamps Go's `time.Time` can carry and `Format` renders
with a four-digit year. -/
def ValidTime (t : GoTime) : Prop :=
  1 ≤ t.year ∧ t.year ≤ 9999 ∧ 1 ≤ t.month ∧ t.month ≤ 12 ∧
  1 ≤ t.day ∧ t.day ≤ daysInMonth t.year t.month ∧
  t.hour ≤ 23 ∧ t.minute ≤ 59 ∧ t.second ≤ 59

instance (t : GoTime) : Decidable (ValidTime t) := by
  unfold ValidTime
  infer_instance

/-- The decimal digit character for `n % 10`. -/
def digitChar (n : Nat) : Char := Char.ofNat (48 + n % 10)

/-- Zero-padded two-digit rendering (Go format fields `01`, `02`, `15`,
`04`, `05`), for values below 100. -/
def pad2 (n : Nat) : Str := [digitChar (n / 10), digitChar n]

/-- Zero-padded four-digit rendering (Go format field `2006`), for values
below 10000. -/
def pad4 (n : Nat) : Str :=
  [digitChar (n / 1000), digitChar (n / 100), digitChar (n / 10), digitChar n]

/-- `getTimestamp` / `t.UTC().Format(timeFormat)` with
`timeFormat = "20060102T150405Z"`. -/
def formatTimestamp (t : GoTime) : Str :=
  pad4 t.year ++ pad2 t.month ++ pad2 t.day ++ 'T' ::
    (pad2 t.hour ++ pad2 t.minute ++ pad2 t.second ++ ['Z'])

/-- `getTimestamp` of `signer.go`. -/
def getTimestamp (t : GoTime) : Str := formatTimestamp t

def digitVal (c : Char) : Option Nat :=
  if c.isDigit then some (c.toNat - 48) else none

def val2 (a b : Char) : Option Nat :=
  match digitVal a, digitVal b with
  | some x, some y => some (10 * x + y)
  | _, _ => none

def val4 (a b c d : Char) : Option Nat :=
  match val2 a b, val2 c d with
  | some x, some y => some (100 * x + y)
  | _, _ => none

/-- `time.Parse(timeFormat, value)`: the layout `20060102T150405Z` demands
exactly four year digits, two digits for each other field and the literal
`T` and `Z`; Go then range-checks month, day-of-month (against the month's
length), hour, minute and second. -/
def parseTimestamp (l : Str) : Option GoTime :=
  match l with
  | [y1, y2, y3, y4, mo1, mo2, d1, d2, tc, h1, h2, mi1, mi2, s1, s2, zc] =>
    if tc = 'T' ∧ zc = 'Z' then
      match val4 y1 y2 y3 y4, val2 mo1 mo2, val2 d1 d2,
          val2 h1 h2, val2 mi1 mi2, val2 s1 s2 with
      | some y, some mo, some d, some h, some mi, some s =>
        if 1 ≤ mo ∧ mo ≤ 12 ∧ 1 ≤ d ∧ d ≤ daysInMonth y mo ∧
            h ≤ 23 ∧ mi ≤ 59 ∧ s ≤ 59 then
          some ⟨y, mo, d, h, mi, s⟩
        else none
      | _, _, _, _, _, _ => none
    else none
  | _ => none

/-- Days between a civil date and 1970-01-01 (the standard era-based
conversion used by civil-time libraries). -/
def daysFromCivil (y m d : Int) : Int :=
  let y2 := if m ≤ 2 then y - 1 else y
  let era := (if 0 ≤ y2 then y2 else y2 - 399) / 400
  let yoe := y2 - era * 400
  let mp := (m + 9) % 12
  let doy := (153 * mp + 2) / 5 + d - 1
  let doe := yoe * 365 + yoe / 4 - yoe / 100 + doy
  era * 146097 + doe - 719468

/-- The instant in seconds (relative to the Unix epoch). -/
def toSecs (t : GoTime) : Int :=
  daysFromCivil t.year t.month t.day * 86400 +
    t.hour * 3600 + t.minute * 60 + t.second

/-- `currentTime.Sub(auth.timestamp).Abs()`, in whole seconds. -/
def timeDiffSecs (t2 t : GoTime) : Nat := (toSecs t2 - toSecs t).natAbs

/-- `maxTimeDiff = time.Minute * 5`, in seconds. -/
def maxTimeDiffSecs : Nat := 300

/-! ## The HTTP signer (`signer.go`)

`crypto/sha256` and `crypto/hmac` are Go-standard-library collaborators;
their digests are abstract byte lists (`List (Fin 256)`) produced by
function parameters `sha256Sum` / `hmacSha256`.  `hex.EncodeToString` is
transcribed concretely. -/

def signingAlgorithm : Str := str "SEAYOO-HMAC-SHA256"

/-- The hex encoded sha256 value of an empty string (a fixed constant in
the source, not recomputed per call). -/
def emptyStringSha256 : Str :=
  str "e3b0c44298fc1c149afbf4c8996fb92427ae41e4649b934ca495991b7852b855"

/-- One lowercase hexadecimal digit (`0`–`9`, `a`–`f`). -/
def hexDigitChar (n : Nat) : Char :=
  Char.ofNat (if n < 10 then 48 + n else 87 + n)

/-- `hex.EncodeToString`: two lowercase hex digits per byte. -/
def hexEncode (bs : List (Fin 256)) : Str :=
  bs.flatMap (fun b => [hexDigitChar (b.val / 16), hexDigitChar (b.val % 16)])

/-- The parts of an `*http.Request` the signer touches: method, the
path+query exactly as transmitted (`r.URL.RequestURI()`), the replayable
body (`nil` or its bytes; `computePayloadHash` restores the body after
reading, so reading is modelled as a pure lookup), and the `Authorization`
header (`Header.Get` yields the empty string when the header is absent). -/
structure HttpRequest where
  method : Str
  requestURI : Str
  body : Option Str
  authz : Option Str
deriving DecidableEq, Repr

/-- `r.Header.Get(authorizationHeader)`. -/
def headerGet (r : HttpRequest) : Str := r.authz.getD []

/-- The parsed `authorization` structure.  Fields not set by a parameter
keep Go's zero values. -/
structure Authorization where
  scheme : Str
  game : Str
  timestamp : GoTime
  signature : Str
deriving DecidableEq, Repr

/-- The distinct error returns of `AuthHttp` and
`parseAuthorizationHeader` (the source returns `error` values with
distinct messages). -/
inductive AuthError where
  | missingHeader
  | invalidHeader
  | invalidParameters
  | invalidTimestamp
  | invalidScheme
  | clockSkew
  | gameMismatch
  | badSignature
deriving DecidableEq, Repr

/-- One iteration of the parameter loop of `parseAuthorizationHeader`:
split the segment on every `=`, demand exactly one `=`, trim the key of
spaces and the value of spaces and double quotes, then dispatch on the key
(unknown parameter names are ignored). -/
def applyParam (auth : Authorization) (p : Str) : Except AuthError Authorization :=
  match splitOnChar '=' p with
  | [k0, v0] =>
    let k := trimChars [' '] k0
    let v := trimChars [' ', '"'] v0
    if k = str "Game" then .ok { auth with game := v }
    else if k = str "Timestamp" then
      match parseTimestamp v with
      | none => .error .invalidTimestamp
      | some t => .ok { auth with timestamp := t }
    else if k = str "Signature" then .ok { auth with signature := v }
    else .ok auth
  | _ => .error .invalidParameters

def foldParams (auth : Authorization) : List Str → Except AuthError Authorization
  | [] => .ok auth
  | p :: ps =>
    match applyParam auth p with
    | .error e => .error e
    | .ok a => foldParams a ps

/-- `parseAuthorizationHeader`: scheme up to the first space, then
comma-separated parameters (the parameter slice starts at the space
itself, so the first key carries a leading space removed by trimming). -/
def parseAuthorizationHeader (header : Str) : Except AuthError Authorization :=
  if header = [] then .error .missingHeader
  else
    match indexOfChar ' ' header with
    | none => .error .invalidHeader
    | some i =>
      let scheme := header.take i
      let parameters := splitOnChar ',' (header.drop i)
      foldParams ⟨scheme, [], zeroTime, []⟩ parameters

section Signer

-- Abstract digests of the crypto collaborators: `sha256.Sum256` and the
-- keyed `SecretKey.hmacSha256`.
variable (sha256Sum : Str → List (Fin 256))
variable (hmacSha256 : Str → Str → List (Fin 256))

/-- `computePayloadHash`: the fixed empty-string digest when the body is
absent, otherwise the hex-encoded SHA-256 of the body bytes (read
non-destructively). -/
def computePayloadHash (r : HttpRequest) : Str :=
  match r.body with
  | none => emptyStringSha256
  | some b => hexEncode (sha256Sum b)

/-- `buildStringToSign`: newline-joined algorithm id, method, request URI,
timestamp and payload hash. -/
def buildStringToSign (r : HttpRequest) (timestamp : Str) : Str :=
  signingAlgorithm ++ '\n' :: r.method ++ '\n' :: r.requestURI ++
    '\n' :: timestamp ++ '\n' :: computePayloadHash sha256Sum r

/-- `computeSignature`: lowercase-hex HMAC-SHA256 with the secret key. -/
def computeSignature (key stringToSign : Str) : Str :=
  hexEncode (hmacSha256 key stringToSign)

/-- `buildAuthorizationHeader`:
`fmt.Sprintf("%s Game=%s,Timestamp=%s,Signature=%s", ...)`. -/
def buildAuthorizationHeader (game timestamp signature : Str) : Str :=
  signingAlgorithm ++ str " Game=" ++ game ++ str ",Timestamp=" ++ timestamp ++
    str ",Signature=" ++ signature

/-- `SignHttp`: compute the signature over the request at `signingTime` and
set the `Authorization` header.  The only error return of the source is a
body-read failure, which cannot occur for the replayable bodies modelled
here. -/
def signHttp (key game : Str) (r : HttpRequest) (signingTime : GoTime) : HttpRequest :=
  let timestamp := getTimestamp signingTime
  let stringToSign := buildStringToSign sha256Sum r timestamp
  let signature := computeSignature hmacSha256 key stringToSign
  { r with authz := some (buildAuthorizationHeader game timestamp signature) }

/-- `AuthHttp`: parse the `Authorization` header, then verify scheme,
timestamp window, game and signature, in that order.  Returns `none` on
success (Go returns `nil`). -/
def authHttp (key game : Str) (r : HttpRequest) (currentTime : GoTime) :
    Option AuthError :=
  match parseAuthorizationHeader (headerGet r) with
  | .error e => some e
  | .ok auth =>
    if auth.scheme ≠ signingAlgorithm then some .invalidScheme
    else if maxTimeDiffSecs < timeDiffSecs currentTime auth.timestamp then
      some .clockSkew
    else if auth.game ≠ game then some .gameMismatch
    else
      let timestamp := getTimestamp auth.timestamp
      let stringToSign := buildStringToSign sha256Sum r timestamp
      if auth.signature ≠ computeSignature hmacSha256 key stringToSign then
        some .badSignature
      else none

end Signer

/-! ## Interleaved dispatches over the in-memory store (claim C1)

Each concurrent `HandleGmRequest` call synchronizes with the others only at
the store's two atomic operations, so a dispatch decomposes into an atomic
claim step (`SetNX` plus the branch on the returned previous value; on the
replay path the dispatch also completes here) and, on the first-execution
path, an atomic finalize step (`processRequest`'s write-back).  A schedule
is a list of process indices; every interleaving of the dispatches is some
schedule. -/

/-- One dispatch's inputs: its request and its freshly generated uuid. -/
structure ProcInput where
  req : GmRequest
  nonce : Str

/-- The phase of one dispatch: not started; past a successful first-time
claim (holding its pending record, executor running); completed via the
first-execution path; or completed via the replay path. -/
inductive ProcPhase (α : Type) where
  | idle
  | executing (rec : IdempotencyRecord)
  | doneFirst (out : DispResp α × Option GmErrorResponse)
  | doneReplay (out : DispResp α × Option GmErrorResponse)
deriving DecidableEq, Repr

section Trace

variable {α : Type}
variable (exec : GmRequest → α × Option GmErrorResponse)
variable (marshalResp : α → Option Str)

/-- The atomic claim step: `HandleGmRequest` up to and including the branch
on `firstTimeRequest` (lines 110–158).  A dispatch without an idempotency
key executes directly; a replay-path dispatch completes immediately with
`previousResponse`. -/
def claimStep (inp : ProcInput) (st : Mem) : Mem × ProcPhase α :=
  if inp.req.idempotencyKey = [] then
    let (a, e) := exec inp.req
    (st, .doneFirst (.value a, e))
  else
    let record := initialRecord inp.nonce inp.req
    let (st1, old, _errNX) := memSetNX st inp.req.idempotencyKey (encRec record)
    match parseOldRecord old with
    | .error _ =>
      (st1, .doneReplay (.bytes none, some ⟨GmError_InternalError,
        str "failed to unmarshal old idempotency record", false⟩))
    | .ok none => (st1, .executing record)
    | .ok (some oldRec) =>
      if oldRec.nonce = inp.nonce then (st1, .executing record)
      else (st1, .doneReplay (previousResponse inp.req oldRec))

/-- The atomic finalize step: `processRequest` / `saveIdempotencyRecord`
(the executor result is pure, so it is materialized here). -/
def finalizeStep (inp : ProcInput) (rec : IdempotencyRecord) (st : Mem) :
    Mem × ProcPhase α :=
  let (a, e) := exec inp.req
  let record2 := { rec with done := true, resp := marshalResp a, error := e }
  let (st2, _errXX) := memSetXX st record2.key (encRec record2)
  (st2, .doneFirst (.bytes record2.resp, record2.error))

/-- Global state of `n` interleaved dispatches sharing one fresh in-memory
store. -/
structure SysState (n : Nat) (α : Type) where
  store : Mem
  procs : Fin n → ProcPhase α

/-- All dispatches pending, the store fresh (`NewMemoryIdempotencyStore`). -/
def initState (n : Nat) (α : Type) : SysState n α := ⟨[], fun _ => .idle⟩

/-- Let process `i` take its next atomic step (completed processes have no
step left). -/
def sysStep {n : Nat} (inps : Fin n → ProcInput) (s : SysState n α) (i : Fin n) :
    SysState n α :=
  match s.procs i with
  | .idle =>
    let (st', ph) := claimStep exec (inps i) s.store
    ⟨st', Function.update s.procs i ph⟩
  | .executing rec =>
    let (st', ph) := finalizeStep exec marshalResp (inps i) rec s.store
    ⟨st', Function.update s.procs i ph⟩
  | _ => s

/-- Run a schedule from the initial state. -/
def runTrace {n : Nat} (inps : Fin n → ProcInput) (tr : List (Fin n)) :
    SysState n α :=
  tr.foldl (sysStep exec marshalResp inps) (initState n α)

/-- Whether a dispatch in this phase has invoked (or is invoking) the
wrapped executor. -/
def invoked : ProcPhase α → Bool
  | .executing _ => true
  | .doneFirst _ => true
  | _ => false

/-- How many of the `n` dispatches have invoked the wrapped executor. -/
def execCount {n : Nat} (s : SysState n α) : Nat :=
  ((List.finRange n).filter fun i => invoked (s.procs i)).length

/-- The outcomes claim C1 allows for a replay-path dispatch when `j` is the
dispatch that executed: the still-pending conflict error, a mismatch error,
or the single execution's recorded outcome. -/
def OkReplayOut {n : Nat} (inps : Fin n → ProcInput) (j : Fin n)
    (out : DispResp α × Option GmErrorResponse) : Prop :=
  out = (.bytes none, some ⟨GmError_IdempotencyConflict,
      str "previous request is not completed", false⟩) ∨
  (out.1 = .bytes none ∧
    ∃ msg, out.2 = some ⟨GmError_IdempotencyMismatch, msg, false⟩) ∨
  out = (.bytes (marshalResp (exec (inps j).req).1), (exec (inps j).req).2)

/-- The inductive invariant for claim C1: either nothing has been claimed
and the store is empty, or a unique dispatch `j` owns the key — the store
holds `j`'s pending or finalized record matching `j`'s phase — and every
other dispatch is idle or completed on the replay path with an allowed
outcome. -/
def C1Inv {n : Nat} (inps : Fin n → ProcInput) (k : Str) (s : SysState n α) : Prop :=
  (s.store = [] ∧ ∀ i, s.procs i = .idle) ∨
  ∃ j : Fin n,
    ((s.store = [(k, encRec (initialRecord (inps j).nonce (inps j).req))] ∧
        s.procs j = .executing (initialRecord (inps j).nonce (inps j).req)) ∨
      (s.store = [(k, encRec (finalizedRecord exec marshalResp (inps j).nonce (inps j).req))] ∧
        s.procs j = .doneFirst
          (.bytes (finalizedRecord exec marshalResp (inps j).nonce (inps j).req).resp,
            (finalizedRecord exec marshalResp (inps j).nonce (inps j).req).error))) ∧
    ∀ i, i ≠ j → s.procs i = .idle ∨
      ∃ out, s.procs i = .doneReplay out ∧ OkReplayOut exec marshalResp inps j out

end Trace

/-- A character that cannot disturb the authorization-header syntax. -/
def goodChar (c : Char) : Prop := c ≠ ',' ∧ c ≠ '=' ∧ c ≠ ' ' ∧ c ≠ '"'

instance (c : Char) : Decidable (goodChar c) := by
  unfold goodChar
  infer_instance

/-! ## Concrete instances used for evaluating the theorems

Small executable stand-ins for the abstract collaborators (an executor, a
response marshaller, digest functions, a store whose finalize write-back
fails), plus concrete requests, records and store states. -/

namespace Wit

/-- A concrete wrapped executor: every command succeeds with body `ok`. -/
def wexec : GmRequest → Str × Option GmErrorResponse := fun _ => (str "ok", none)

/-- A concrete response marshaller that always succeeds. -/
def wmarshal : Str → Option Str := fun a => some a

/-- A concrete digest stand-in for `sha256.Sum256`. -/
def wsha : Str → List (Fin 256) := fun _ => [7]

/-- A concrete digest stand-in for the keyed HMAC-SHA256. -/
def whmac : Str → Str → List (Fin 256) := fun _ _ => [171, 3]

def wreq : GmRequest :=
  { version := str "2.0", id := str "rid", idempotencyKey := str "kk",
    cmd := str "cmd", args := str "ar" }

def wnonce : Str := str "n1"

def wnonce2 : Str := str "n2"

/-- A completed record for `wreq`, authored by a different attempt. -/
def woldDone : IdempotencyRecord :=
  { nonce := str "m0", key := str "kk", id := str "rid", cmd := str "cmd",
    args := str "ar", done := true, resp := some (str "rr"), error := none }

/-- The same record still pending. -/
def woldPending : IdempotencyRecord := { woldDone with done := false, resp := none }

def wmemDone : Mem := [(str "kk", encRec woldDone)]

def wmemPending : Mem := [(str "kk", encRec woldPending)]

/-- An `IdempotencyStore` implementation whose `SetXX` always fails — the
interface allows user-supplied stores, and a networked store's write-back
can fail. -/
def failStore : StoreOps Mem where
  setNX := memSetNX
  setXX := fun m _ _ => (m, some (str "store unavailable"))

/-- Two interleaved dispatches with the same key and distinct nonces. -/
def winps : Fin 2 → ProcInput := fun i =>
  if i = 0 then ⟨wreq, wnonce⟩ else ⟨wreq, wnonce2⟩

/-- A request signed at `t0C3` below, under the concrete digests. -/
def wsignedReq : HttpRequest :=
  signHttp wsha whmac (str "secret") (str "g1")
    ⟨str "POST", str "/v1/ping", some (str "body"), none⟩ ⟨2024, 1, 1, 0, 0, 0⟩

/-- A request whose header carries a malformed timestamp before a
base64-padded (`=`-containing) signature value. -/
def wbadReq : HttpRequest :=
  { method := str "POST", requestURI := str "/v1/ping", body := none,
    authz := some (str "SEAYOO-HMAC-SHA256 Timestamp=zz,Signature=a=b") }

/-- A request with a well-formed header stamped 2024-01-01T00:00:00Z. -/
def wauthReq : HttpRequest :=
  { method := str "POST", requestURI := str "/v1/ping", body := none,
    authz := some
      (str "SEAYOO-HMAC-SHA256 Game=g1,Timestamp=20240101T000000Z,Signature=ab03") }

/-- The `authorization` structure `wauthReq`'s header parses to. -/
def wauth : Authorization :=
  { scheme := signingAlgorithm, game := str "g1",
    timestamp := ⟨2024, 1, 1, 0, 0, 0⟩, signature := str "ab03" }

end Wit

/-! ## Serialization round-trip lemmas -/

theorem takeWhile_replicate_cons_ne {c x : Char} (h : x ≠ c) (n : Nat) (t : Str) :
    (List.replicate n c ++ x :: t).takeWhile (· = c) = List.replicate n c := by
  induction n with
  | zero => simp [List.takeWhile, h]
  | succ k ih => simpa [List.replicate_succ, List.takeWhile] using ih

theorem decStr_encStr (s rest : Str) : decStr (encStr s ++ rest) = some (s, rest) := by
  have hx : ':' ≠ '#' := by decide
  unfold decStr encStr
  simp only [List.append_assoc, List.cons_append,
    takeWhile_replicate_cons_ne hx, List.length_replicate]
  rw [List.drop_append_of_le_length (by simp)]
  simp [List.take_append_of_le_length, List.drop_append_of_le_length,
    List.take_left, List.drop_left]

theorem encStr_ne_nil (s : Str) : encStr s ≠ [] := by
  cases s <;> simp [encStr]

theorem decBool_encBool (b : Bool) (rest : Str) :
    decBool (encBool b ++ rest) = some (b, rest) := by
  cases b <;> rfl

theorem decOptStr_encOptStr (o : Option Str) (rest : Str) :
    decOptStr (encOptStr o ++ rest) = some (o, rest) := by
  cases o with
  | none => rfl
  | some s => simp [encOptStr, decOptStr, decStr_encStr]

theorem decOptErr_encOptErr (o : Option GmErrorResponse) (rest : Str) :
    decOptErr (encOptErr o ++ rest) = some (o, rest) := by
  cases o with
  | none => rfl
  | some e =>
    simp [encOptErr, decOptErr, decStr_encStr, decBool_encBool]

theorem decRec_encRec (r : IdempotencyRecord) : decRec (encRec r) = some r := by
  obtain ⟨nonce, key, id, cmd, args, done, resp, error⟩ := r
  have h := decOptErr_encOptErr error []
  simp only [List.append_nil] at h
  simp [decRec, encRec, decStr_encStr, decBool_encBool, decOptStr_encOptStr, h]

theorem encRec_ne_nil (r : IdempotencyRecord) : encRec r ≠ [] := by
  obtain ⟨nonce, key, id, cmd, args, done, resp, error⟩ := r
  cases nonce <;> simp [encRec, encStr]

/-! ## Theorems for claim C8 -/

/-- **C8** — Store primitives: for every state of the in-memory store,
`SetNX(key, value)` stores the value and returns the empty string when the
key is absent, and returns the pre-existing value while leaving the map
unchanged when the key is present; `SetXX(key, value)` overwrites the value
when the key is present and, when the key is absent, leaves the map
unchanged and returns a `nil` error (a no-op, not an error). -/
theorem C8_store_primitives (m : Mem) (key value : Str) :
    (mapGet m key = none →
      memSetNX m key value = (mapSet m key value, [], none) ∧
      mapGet (memSetNX m key value).1 key = some value ∧
      memSetXX m key value = (m, none)) ∧
    (∀ old, mapGet m key = some old →
      memSetNX m key value = (m, old, none) ∧
      memSetXX m key value = (mapSet m key value, none) ∧
      mapGet (memSetXX m key value).1 key = some value) := by
  constructor
  · intro h
    refine ⟨by simp [memSetNX, h], ?_, by simp [memSetXX, h]⟩
    simp only [memSetNX, h]
    induction m with
    | nil => simp [mapSet, mapGet]
    | cons p t ih =>
      obtain ⟨k, v⟩ := p
      by_cases hk : k = key
      · simp [mapGet, hk] at h
      · simp only [mapGet, hk, if_neg] at h
        simp [mapSet, mapGet, hk, ih h]
  · intro old h
    refine ⟨by simp [memSetNX, h], by simp [memSetXX, h], ?_⟩
    simp only [memSetXX, h]
    clear h
    induction m with
    | nil => simp [mapSet, mapGet]
    | cons p t ih =>
      obtain ⟨k, v⟩ := p
      by_cases hk : k = key
      · simp [mapSet, mapGet, hk]
      · simp [mapSet, mapGet, hk, ih]

/-- Witness for C8 at a concrete store state. -/
theorem C8_store_primitives_witness :
    (mapGet [(str "a", str "1")] (str "k") = none →
      memSetNX [(str "a", str "1")] (str "k") (str "v") =
        (mapSet [(str "a", str "1")] (str "k") (str "v"), [], none) ∧
      mapGet (memSetNX [(str "a", str "1")] (str "k") (str "v")).1 (str "k") =
        some (str "v") ∧
      memSetXX [(str "a", str "1")] (str "k") (str "v") =
        ([(str "a", str "1")], none)) ∧
    (∀ old, mapGet [(str "a", str "1")] (str "k") = some old →
      memSetNX [(str "a", str "1")] (str "k") (str "v") =
        ([(str "a", str "1")], old, none) ∧
      memSetXX [(str "a", str "1")] (str "k") (str "v") =
        (mapSet [(str "a", str "1")] (str "k") (str "v"), none) ∧
      mapGet (memSetXX [(str "a", str "1")] (str "k") (str "v")).1 (str "k") =
        some (str "v")) :=
  C8_store_primitives [(str "a", str "1")] (str "k") (str "v")

/-! ## Theorems for claims C6, C2, C7, C10 -/

/-- **C6** — Nonce self-echo: after the claim (`SetNX`) returns, the dispatch
takes the first-execution path (runs the wrapped executor) if and only if the
returned previous value is the empty string or deserializes to a record whose
nonce equals the nonce freshly generated for this very attempt; any previous
record bearing a different nonce sends the dispatch to the replay path
instead. -/
theorem C6_nonce_self_echo {σ α : Type}
    (st : StoreOps σ) (exec : GmRequest → α × Option GmErrorResponse)
    (marshalResp : α → Option Str) (nonce : Str) (s : σ) (req : GmRequest)
    (hkey : req.idempotencyKey ≠ [])
    (s1 : σ) (old : Str) (o : Option IdempotencyRecord)
    (hNX : st.setNX s req.idempotencyKey (encRec (initialRecord nonce req)) =
      (s1, old, none))
    (hparse : parseOldRecord old = .ok o) :
    ((handleGmRequest exec marshalResp st nonce s req).executed = true ↔
      (o = none ∨ ∃ r, o = some r ∧ r.nonce = nonce)) ∧
    (∀ r, o = some r → r.nonce ≠ nonce →
      handleGmRequest exec marshalResp st nonce s req =
        ⟨s1, (previousResponse req r : DispResp α × Option GmErrorResponse).1,
          (previousResponse req r : DispResp α × Option GmErrorResponse).2, false⟩) := by
  unfold handleGmRequest
  rw [if_neg hkey]
  simp only [hNX, hparse]
  cases o with
  | none =>
    simp [processRequest]
  | some r =>
    by_cases hn : r.nonce = nonce
    · simp [hn, processRequest]
    · simp [hn, previousResponse]

/-- **C2** — Replay path: whenever a dispatch with a non-empty idempotency
key finds an existing record authored by a different attempt (previous value
non-empty with a different nonce), it returns `IdempotencyConflict` if the
record's `done` flag is false; `IdempotencyMismatch` if `done` is true but
the record's command name or serialized args differ from the current
request's; and otherwise the stored serialized result and stored error
unchanged — in all three cases without invoking the wrapped executor. -/
theorem C2_replay_path {σ α : Type}
    (st : StoreOps σ) (exec : GmRequest → α × Option GmErrorResponse)
    (marshalResp : α → Option Str) (nonce : Str) (s : σ) (req : GmRequest)
    (hkey : req.idempotencyKey ≠ [])
    (s1 : σ) (old : Str) (r : IdempotencyRecord)
    (hNX : st.setNX s req.idempotencyKey (encRec (initialRecord nonce req)) =
      (s1, old, none))
    (hne : old ≠ []) (hdec : decRec old = some r) (hnonce : r.nonce ≠ nonce) :
    (handleGmRequest exec marshalResp st nonce s req).executed = false ∧
    (r.done = false →
      handleGmRequest exec marshalResp st nonce s req =
        ⟨s1, .bytes none, some ⟨GmError_IdempotencyConflict,
          str "previous request is not completed", false⟩, false⟩) ∧
    (r.done = true → (r.cmd ≠ req.cmd ∨ r.args ≠ req.args) →
      (handleGmRequest exec marshalResp st nonce s req).resp = .bytes none ∧
      ∃ msg, (handleGmRequest exec marshalResp st nonce s req).err =
        some ⟨GmError_IdempotencyMismatch, msg, false⟩) ∧
    (r.done = true → r.cmd = req.cmd → r.args = req.args →
      handleGmRequest exec marshalResp st nonce s req =
        ⟨s1, .bytes r.resp, r.error, false⟩) := by
  have hparse : parseOldRecord old = .ok (some r) := by
    simp [parseOldRecord, hne, hdec]
  unfold handleGmRequest
  rw [if_neg hkey]
  simp only [hNX, hparse, hnonce]
  refine ⟨by simp [hnonce], ?_, ?_, ?_⟩
  · intro hdone
    simp [hnonce, previousResponse, hdone]
  · intro hdone hdiff
    rcases hdiff with hcmd | hargs
    · simp [hnonce, previousResponse, hdone, hcmd]
    · by_cases hcmd : r.cmd = req.cmd
      · simp [hnonce, previousResponse, hdone, hcmd, hargs]
      · simp [hnonce, previousResponse, hdone, hcmd]
  · intro hdone hcmd hargs
    simp [hnonce, previousResponse, hdone, hcmd, hargs]

/-- **C7** — Finalize fail-open: on the first-execution path, if the
finalizing conditional update (`SetXX`) returns an error, the dispatch still
returns the freshly computed outcome (serialized response and executor
error) to the immediate caller — identical to what any store that succeeds
would produce; the store failure is never propagated. -/
theorem C7_finalize_fail_open {σ σ' α : Type}
    (st : StoreOps σ) (st' : StoreOps σ')
    (exec : GmRequest → α × Option GmErrorResponse)
    (marshalResp : α → Option Str) (nonce : Str) (s : σ) (s' : σ')
    (req : GmRequest) (hkey : req.idempotencyKey ≠ [])
    (s1 : σ) (s1' : σ')
    (hNX : st.setNX s req.idempotencyKey (encRec (initialRecord nonce req)) =
      (s1, [], none))
    (hNX' : st'.setNX s' req.idempotencyKey (encRec (initialRecord nonce req)) =
      (s1', [], none))
    (e : Str)
    (_hXX : (st.setXX s1 req.idempotencyKey
      (encRec (finalizedRecord exec marshalResp nonce req))).2 = some e) :
    (handleGmRequest exec marshalResp st nonce s req).resp =
      .bytes (marshalResp (exec req).1) ∧
    (handleGmRequest exec marshalResp st nonce s req).err = (exec req).2 ∧
    (handleGmRequest exec marshalResp st nonce s req).resp =
      (handleGmRequest exec marshalResp st' nonce s' req).resp ∧
    (handleGmRequest exec marshalResp st nonce s req).err =
      (handleGmRequest exec marshalResp st' nonce s' req).err := by
  unfold handleGmRequest
  rw [if_neg hkey]
  simp only [hNX, hNX']
  simp [parseOldRecord, processRequest, finalizedRecord, initialRecord, hkey]

/-- **C10** — Serialized outcome identity: on the first-execution path with a
non-empty idempotency key, the response returned to the caller is the
JSON-serialized bytes of the executor's response (never the executor's
original value), with any serialization error silently discarded — a
response that cannot be marshalled yields a `nil` response body while the
executor's error is reported unchanged; and with the in-memory store, a
later dispatch bearing the same key, command and args (and a fresh nonce)
observes byte-identical serialized response and error, without executing. -/
theorem C10_serialized_outcome {σ α : Type}
    (st : StoreOps σ) (exec : GmRequest → α × Option GmErrorResponse)
    (marshalResp : α → Option Str) (nonce : Str) (s : σ) (req : GmRequest)
    (hkey : req.idempotencyKey ≠ [])
    (s1 : σ)
    (hNX : st.setNX s req.idempotencyKey (encRec (initialRecord nonce req)) =
      (s1, [], none)) :
    ((handleGmRequest exec marshalResp st nonce s req).resp =
      .bytes (marshalResp (exec req).1) ∧
     (∀ a, (handleGmRequest exec marshalResp st nonce s req).resp ≠ .value a) ∧
     (marshalResp (exec req).1 = none →
       (handleGmRequest exec marshalResp st nonce s req).resp = .bytes none ∧
       (handleGmRequest exec marshalResp st nonce s req).err = (exec req).2)) ∧
    (∀ nonce', nonce' ≠ nonce →
      (handleGmRequest exec marshalResp memStore nonce'
          (handleGmRequest exec marshalResp memStore nonce [] req).store req).resp =
        (handleGmRequest exec marshalResp memStore nonce [] req).resp ∧
      (handleGmRequest exec marshalResp memStore nonce'
          (handleGmRequest exec marshalResp memStore nonce [] req).store req).err =
        (handleGmRequest exec marshalResp memStore nonce [] req).err ∧
      (handleGmRequest exec marshalResp memStore nonce'
          (handleGmRequest exec marshalResp memStore nonce [] req).store req).executed =
        false) := by
  constructor
  · unfold handleGmRequest
    rw [if_neg hkey]
    simp only [hNX]
    simp only [parseOldRecord, if_pos rfl]
    refine ⟨by simp [processRequest], by simp [processRequest], ?_⟩
    intro hm
    simp [processRequest, hm]
  · intro nonce' hnonce'
    have h1 : handleGmRequest exec marshalResp memStore nonce [] req =
        ⟨[(req.idempotencyKey, encRec (finalizedRecord exec marshalResp nonce req))],
          .bytes (marshalResp (exec req).1), (exec req).2, true⟩ := by
      unfold handleGmRequest
      rw [if_neg hkey]
      simp only [memStore, memSetNX, mapGet]
      simp only [parseOldRecord, if_pos rfl]
      simp [processRequest, memSetXX, mapGet, mapSet, initialRecord,
        finalizedRecord]
    rw [h1]
    have hnn : nonce ≠ nonce' := Ne.symm hnonce'
    simp [handleGmRequest, hkey, memStore, memSetNX, mapGet, parseOldRecord,
      encRec_ne_nil, decRec_encRec, finalizedRecord, initialRecord,
      previousResponse, hnn]

/-! ## String primitive lemmas -/

theorem splitOnChar_ne_nil (c : Char) (l : Str) : splitOnChar c l ≠ [] := by
  induction l with
  | nil => simp [splitOnChar]
  | cons x xs ih =>
    by_cases hx : x = c
    · simp [splitOnChar, hx]
    · simp only [splitOnChar, if_neg hx]
      cases hs : splitOnChar c xs with
      | nil => simp
      | cons t ts => simp

theorem splitOnChar_not_mem {c : Char} {a : Str} (h : c ∉ a) :
    splitOnChar c a = [a] := by
  induction a with
  | nil => rfl
  | cons x xs ih =>
    have hx : ¬x = c := fun e => h (e ▸ List.mem_cons_self x xs)
    have h' : c ∉ xs := fun hm => h (List.mem_cons_of_mem _ hm)
    simp [splitOnChar, hx, ih h']

theorem splitOnChar_append {c : Char} {a : Str} (h : c ∉ a) (b : Str) :
    splitOnChar c (a ++ c :: b) = a :: splitOnChar c b := by
  induction a with
  | nil => simp [splitOnChar]
  | cons x xs ih =>
    have hx : ¬x = c := fun e => h (e ▸ List.mem_cons_self x xs)
    have h' : c ∉ xs := fun hm => h (List.mem_cons_of_mem _ hm)
    simp [splitOnChar, hx, ih h']

theorem length_splitOnChar (c : Char) (l : Str) :
    (splitOnChar c l).length = l.count c + 1 := by
  induction l with
  | nil => rfl
  | cons x xs ih =>
    by_cases hx : x = c
    · subst hx
      simp [splitOnChar, ih, List.count_cons]
    · simp only [splitOnChar, if_neg hx]
      cases hs : splitOnChar c xs with
      | nil => exact absurd hs (splitOnChar_ne_nil c xs)
      | cons t ts =>
        rw [hs] at ih
        simp only [List.length_cons] at ih ⊢
        rw [List.count_cons]
        simp [hx, ih]

theorem indexOfChar_append {c : Char} {a : Str} (h : c ∉ a) (b : Str) :
    indexOfChar c (a ++ c :: b) = some a.length := by
  induction a with
  | nil => simp [indexOfChar]
  | cons x xs ih =>
    have hx : ¬x = c := fun e => h (e ▸ List.mem_cons_self x xs)
    have h' : c ∉ xs := fun hm => h (List.mem_cons_of_mem _ hm)
    simp [indexOfChar, hx, ih h']

theorem dropWhile_eq_self_of {p : Char → Bool} {l : Str}
    (h : ∀ x ∈ l, ¬p x) : l.dropWhile p = l := by
  cases l with
  | nil => rfl
  | cons x xs =>
    rw [List.dropWhile_cons_of_neg (h x (List.mem_cons_self x xs))]

theorem trimChars_eq_self {cs : List Char} {l : Str}
    (h : ∀ x ∈ l, x ∉ cs) : trimChars cs l = l := by
  unfold trimChars
  have h1 : l.dropWhile (fun x => decide (x ∈ cs)) = l :=
    dropWhile_eq_self_of (by intro x hx; simpa using h x hx)
  rw [h1]
  have h2 : l.reverse.dropWhile (fun x => decide (x ∈ cs)) = l.reverse :=
    dropWhile_eq_self_of
      (by intro x hx; rw [List.mem_reverse] at hx; simpa using h x hx)
  rw [h2, List.reverse_reverse]

/-! ## Hex encoding and timestamp rendering lemmas -/

theorem hexEncode_mem (bs : List (Fin 256)) :
    ∀ c ∈ hexEncode bs, c ∈ str "0123456789abcdef" := by
  intro c hc
  unfold hexEncode at hc
  rw [List.mem_flatMap] at hc
  obtain ⟨b, _, hb⟩ := hc
  have h16 : ∀ m : Fin 16, hexDigitChar m.val ∈ str "0123456789abcdef" := by decide
  have hdiv : b.val / 16 < 16 := by omega
  have hmod : b.val % 16 < 16 := by omega
  simp only [List.mem_cons, List.not_mem_nil, or_false] at hb
  rcases hb with rfl | rfl
  · exact h16 ⟨b.val / 16, hdiv⟩
  · exact h16 ⟨b.val % 16, hmod⟩

theorem hexEncode_good (bs : List (Fin 256)) :
    ∀ c ∈ hexEncode bs, goodChar c := by
  intro c hc
  have hall : ∀ c ∈ str "0123456789abcdef", goodChar c := by decide
  exact hall c (hexEncode_mem bs c hc)

theorem digitChar_spec :
    ∀ k, k < 10 → (digitChar k = Char.ofNat (48 + k) ∧ goodChar (digitChar k) ∧
      digitVal (digitChar k) = some k) := by
  intro k hk
  interval_cases k <;> exact ⟨rfl, by decide, by decide⟩

theorem digitChar_eq_mod (n : Nat) : digitChar n = digitChar (n % 10) := by
  unfold digitChar
  congr 1
  omega

theorem digitVal_digitChar (n : Nat) : digitVal (digitChar n) = some (n % 10) := by
  rw [digitChar_eq_mod]
  exact (digitChar_spec (n % 10) (Nat.mod_lt _ (by norm_num))).2.2

theorem digitChar_good (n : Nat) : goodChar (digitChar n) := by
  rw [digitChar_eq_mod]
  exact (digitChar_spec (n % 10) (Nat.mod_lt _ (by norm_num))).2.1

/-! ## The at-most-once invariant (claim C1) -/

section TraceProofs

variable {n : Nat} {α : Type}
variable (exec : GmRequest → α × Option GmErrorResponse)
variable (marshalResp : α → Option Str)

theorem mapGet_singleton (k v : Str) : mapGet [(k, v)] k = some v := by
  simp [mapGet]

theorem mapSet_singleton (k v w : Str) : mapSet [(k, v)] k w = [(k, w)] := by
  simp [mapSet]

theorem claimStep_absent (inp : ProcInput) (st : Mem)
    (hkey : inp.req.idempotencyKey ≠ [])
    (hget : mapGet st inp.req.idempotencyKey = none) :
    claimStep exec inp st =
      (mapSet st inp.req.idempotencyKey (encRec (initialRecord inp.nonce inp.req)),
        .executing (initialRecord inp.nonce inp.req)) := by
  unfold claimStep
  rw [if_neg hkey]
  simp [memSetNX, hget, parseOldRecord]

theorem claimStep_present (inp : ProcInput) (st : Mem) (old : IdempotencyRecord)
    (hkey : inp.req.idempotencyKey ≠ [])
    (hget : mapGet st inp.req.idempotencyKey = some (encRec old))
    (hn : old.nonce ≠ inp.nonce) :
    claimStep exec inp st = (st, .doneReplay (previousResponse inp.req old)) := by
  unfold claimStep
  rw [if_neg hkey]
  simp [memSetNX, hget, parseOldRecord, encRec_ne_nil, decRec_encRec, hn]

theorem finalizeStep_run (inp : ProcInput) (st : Mem) (v : Str)
    (hget : mapGet st inp.req.idempotencyKey = some v) :
    finalizeStep exec marshalResp inp (initialRecord inp.nonce inp.req) st =
      (mapSet st inp.req.idempotencyKey
          (encRec (finalizedRecord exec marshalResp inp.nonce inp.req)),
        .doneFirst
          (.bytes (finalizedRecord exec marshalResp inp.nonce inp.req).resp,
            (finalizedRecord exec marshalResp inp.nonce inp.req).error)) := by
  unfold finalizeStep memSetXX
  simp only [finalizedRecord, initialRecord, hget]

/-- Replaying against a pending record yields the conflict error. -/
theorem previousResponse_pending (req req' : GmRequest) (nonce : Str) :
    (previousResponse req' (initialRecord nonce req) : DispResp α × Option GmErrorResponse) =
      (.bytes none, some ⟨GmError_IdempotencyConflict,
        str "previous request is not completed", false⟩) := by
  simp [previousResponse, initialRecord]

/-- Replaying against a finalized record yields an allowed outcome. -/
theorem previousResponse_finalized (req req' : GmRequest) (nonce : Str) (j : Fin n)
    (inps : Fin n → ProcInput) (hj : inps j = ⟨req, nonce⟩) :
    OkReplayOut exec marshalResp inps j
      (previousResponse req' (finalizedRecord exec marshalResp nonce req)) := by
  by_cases hcmd : req.cmd = req'.cmd
  · by_cases hargs : req.args = req'.args
    · right; right
      simp [previousResponse, finalizedRecord, initialRecord, hcmd, hargs, hj]
    · have h : (previousResponse req' (finalizedRecord exec marshalResp nonce req) :
          DispResp α × Option GmErrorResponse) =
          (.bytes none, some ⟨GmError_IdempotencyMismatch,
            str "args mismatch, expecting " ++ (req.args ++ (str ", got " ++ req'.args)),
            false⟩) := by
        simp [previousResponse, finalizedRecord, initialRecord, hcmd, hargs]
      right; left
      exact ⟨by rw [h], _, by rw [h]⟩
  · have h : (previousResponse req' (finalizedRecord exec marshalResp nonce req) :
        DispResp α × Option GmErrorResponse) =
        (.bytes none, some ⟨GmError_IdempotencyMismatch,
          str "cmd mismatch, expecting " ++ (req.cmd ++ (str ", got " ++ req'.cmd)),
          false⟩) := by
      simp [previousResponse, finalizedRecord, initialRecord, hcmd]
    right; left
    exact ⟨by rw [h], _, by rw [h]⟩

theorem sysStep_idle (inps : Fin n → ProcInput) (s : SysState n α) (i : Fin n)
    (hidle : s.procs i = .idle) :
    sysStep exec marshalResp inps s i =
      ⟨(claimStep exec (inps i) s.store).1,
        Function.update s.procs i (claimStep exec (inps i) s.store).2⟩ := by
  unfold sysStep
  rw [hidle]

theorem sysStep_executing (inps : Fin n → ProcInput) (s : SysState n α) (i : Fin n)
    (rec : IdempotencyRecord) (hexec : s.procs i = .executing rec) :
    sysStep exec marshalResp inps s i =
      ⟨(finalizeStep exec marshalResp (inps i) rec s.store).1,
        Function.update s.procs i (finalizeStep exec marshalResp (inps i) rec s.store).2⟩ := by
  unfold sysStep
  rw [hexec]

theorem sysStep_doneFirst (inps : Fin n → ProcInput) (s : SysState n α) (i : Fin n)
    (out : DispResp α × Option GmErrorResponse) (h : s.procs i = .doneFirst out) :
    sysStep exec marshalResp inps s i = s := by
  unfold sysStep
  rw [h]

theorem sysStep_doneReplay (inps : Fin n → ProcInput) (s : SysState n α) (i : Fin n)
    (out : DispResp α × Option GmErrorResponse) (h : s.procs i = .doneReplay out) :
    sysStep exec marshalResp inps s i = s := by
  unfold sysStep
  rw [h]

theorem C1Inv_init (inps : Fin n → ProcInput) (k : Str) :
    C1Inv exec marshalResp inps k (initState n α) :=
  Or.inl ⟨rfl, fun _ => rfl⟩

theorem C1Inv_step (inps : Fin n → ProcInput) (k : Str)
    (hk : k ≠ []) (hkey : ∀ i, (inps i).req.idempotencyKey = k)
    (hnonce : ∀ i j, i ≠ j → (inps i).nonce ≠ (inps j).nonce)
    (s : SysState n α) (hInv : C1Inv exec marshalResp inps k s) (i : Fin n) :
    C1Inv exec marshalResp inps k (sysStep exec marshalResp inps s i) := by
  have hki : (inps i).req.idempotencyKey ≠ [] := by rw [hkey i]; exact hk
  rcases hInv with ⟨hst, hall⟩ | ⟨j, hj, hothers⟩
  · -- nothing claimed yet: `i` claims first
    have hclaim := claimStep_absent exec (inps i) s.store hki
      (by rw [hkey i, hst]; rfl)
    rw [sysStep_idle exec marshalResp inps s i (hall i), hclaim]
    right
    refine ⟨i, Or.inl ⟨?_, ?_⟩, ?_⟩
    · show mapSet s.store (inps i).req.idempotencyKey _ = _
      rw [hst, hkey i]; rfl
    · simp
    · intro i' hi'
      left
      show Function.update s.procs i _ i' = _
      rw [Function.update_noteq hi', hall i']
  · rcases hj with ⟨hstore, hpj⟩ | ⟨hstore, hpj⟩
    · -- store holds j's pending record
      by_cases hij : i = j
      · subst hij
        have hfin := finalizeStep_run exec marshalResp (inps i) s.store _
          (by rw [hkey i, hstore]; exact mapGet_singleton _ _)
        rw [sysStep_executing exec marshalResp inps s i _ hpj, hfin]
        right
        refine ⟨i, Or.inr ⟨?_, ?_⟩, ?_⟩
        · show mapSet s.store (inps i).req.idempotencyKey _ = _
          rw [hstore, hkey i, mapSet_singleton]
        · simp
        · intro i' hi'
          rcases hothers i' hi' with h | ⟨out, hout, hok⟩
          · left
            show Function.update s.procs i _ i' = _
            rw [Function.update_noteq hi', h]
          · right
            refine ⟨out, ?_, hok⟩
            show Function.update s.procs i _ i' = _
            rw [Function.update_noteq hi', hout]
      · rcases hothers i hij with hidle | ⟨out, hout, hok⟩
        · have hclaim := claimStep_present exec (inps i) s.store
            (initialRecord (inps j).nonce (inps j).req) hki
            (by rw [hkey i, hstore]; exact mapGet_singleton _ _)
            (by simpa [initialRecord] using hnonce j i (Ne.symm hij))
          rw [sysStep_idle exec marshalResp inps s i hidle, hclaim]
          right
          refine ⟨j, Or.inl ⟨hstore, ?_⟩, ?_⟩
          · show Function.update s.procs i _ j = _
            rw [Function.update_noteq (Ne.symm hij)]; exact hpj
          · intro i' hi'
            by_cases hii' : i' = i
            · subst hii'
              right
              refine ⟨previousResponse (inps i').req
                  (initialRecord (inps j).nonce (inps j).req), ?_, ?_⟩
              · show Function.update s.procs i' _ i' = _
                rw [Function.update_same]
              · rw [previousResponse_pending]
                left; rfl
            · rcases hothers i' hi' with h | ⟨out', hout', hok'⟩
              · left
                show Function.update s.procs i _ i' = _
                rw [Function.update_noteq hii', h]
              · right
                refine ⟨out', ?_, hok'⟩
                show Function.update s.procs i _ i' = _
                rw [Function.update_noteq hii', hout']
        · rw [sysStep_doneReplay exec marshalResp inps s i out hout]
          right
          exact ⟨j, Or.inl ⟨hstore, hpj⟩, hothers⟩
    · -- store holds j's finalized record
      by_cases hij : i = j
      · subst hij
        rw [sysStep_doneFirst exec marshalResp inps s i _ hpj]
        right
        exact ⟨i, Or.inr ⟨hstore, hpj⟩, hothers⟩
      · rcases hothers i hij with hidle | ⟨out, hout, hok⟩
        · have hclaim := claimStep_present exec (inps i) s.store
            (finalizedRecord exec marshalResp (inps j).nonce (inps j).req) hki
            (by rw [hkey i, hstore]; exact mapGet_singleton _ _)
            (by simpa [finalizedRecord, initialRecord] using hnonce j i (Ne.symm hij))
          rw [sysStep_idle exec marshalResp inps s i hidle, hclaim]
          right
          refine ⟨j, Or.inr ⟨hstore, ?_⟩, ?_⟩
          · show Function.update s.procs i _ j = _
            rw [Function.update_noteq (Ne.symm hij)]; exact hpj
          · intro i' hi'
            by_cases hii' : i' = i
            · subst hii'
              right
              refine ⟨previousResponse (inps i').req
                  (finalizedRecord exec marshalResp (inps j).nonce (inps j).req), ?_, ?_⟩
              · show Function.update s.procs i' _ i' = _
                rw [Function.update_same]
              · exact previousResponse_finalized exec marshalResp (inps j).req
                  (inps i').req (inps j).nonce j inps rfl
            · rcases hothers i' hi' with h | ⟨out', hout', hok'⟩
              · left
                show Function.update s.procs i _ i' = _
                rw [Function.update_noteq hii', h]
              · right
                refine ⟨out', ?_, hok'⟩
                show Function.update s.procs i _ i' = _
                rw [Function.update_noteq hii', hout']
        · rw [sysStep_doneReplay exec marshalResp inps s i out hout]
          right
          exact ⟨j, Or.inr ⟨hstore, hpj⟩, hothers⟩

theorem C1Inv_run (inps : Fin n → ProcInput) (k : Str)
    (hk : k ≠ []) (hkey : ∀ i, (inps i).req.idempotencyKey = k)
    (hnonce : ∀ i j, i ≠ j → (inps i).nonce ≠ (inps j).nonce)
    (tr : List (Fin n)) :
    C1Inv exec marshalResp inps k (runTrace exec marshalResp inps tr) := by
  unfold runTrace
  have h : ∀ s, C1Inv exec marshalResp inps k s →
      C1Inv exec marshalResp inps k
        (tr.foldl (sysStep exec marshalResp inps) s) := by
    induction tr with
    | nil => intro s hs; exact hs
    | cons x xs ih =>
      intro s hs
      exact ih _ (C1Inv_step exec marshalResp inps k hk hkey hnonce s hs x)
  exact h _ (C1Inv_init exec marshalResp inps k)

/-- A duplicate-free list whose elements are all equal has length at most
one. -/
theorem nodup_all_eq_length_le {β : Type} (l : List β) (j : β)
    (hnd : l.Nodup) (hall : ∀ x ∈ l, x = j) : l.length ≤ 1 := by
  cases l with
  | nil => simp
  | cons x t =>
    cases t with
    | nil => simp
    | cons y u =>
      exfalso
      have hx : x = j := hall x (by simp)
      have hy : y = j := hall y (by simp)
      rw [List.nodup_cons] at hnd
      exact hnd.1 (by simp [hx, hy])

end TraceProofs

/-- **C1** — At-most-once per key: for every idempotency key `k` and every
interleaving (at the store's atomic `SetNX`/`SetXX` steps, with the
in-memory store) of `HandleGmRequest` dispatches bearing `k` with distinct
fresh nonces, the wrapped executor is invoked at most once, and every
dispatch that completed without being that single execution returned either
the still-pending `IdempotencyConflict` error, an `IdempotencyMismatch`
error, or the single execution's recorded outcome — never triggering a
second execution. -/
theorem C1_at_most_once {n : Nat} {α : Type}
    (exec : GmRequest → α × Option GmErrorResponse) (marshalResp : α → Option Str)
    (inps : Fin n → ProcInput) (k : Str)
    (hk : k ≠ []) (hkey : ∀ i, (inps i).req.idempotencyKey = k)
    (hnonce : ∀ i j, i ≠ j → (inps i).nonce ≠ (inps j).nonce)
    (tr : List (Fin n)) :
    execCount (runTrace exec marshalResp inps tr) ≤ 1 ∧
    (∀ i out, (runTrace exec marshalResp inps tr).procs i = .doneReplay out →
      ∃ j, invoked ((runTrace exec marshalResp inps tr).procs j) = true ∧ i ≠ j ∧
        OkReplayOut exec marshalResp inps j out) := by
  have hInv := C1Inv_run exec marshalResp inps k hk hkey hnonce tr
  set s := runTrace exec marshalResp inps tr with hs
  rcases hInv with ⟨hst, hall⟩ | ⟨j, hj, hothers⟩
  · constructor
    · unfold execCount
      have hfalse : ∀ i, invoked (s.procs i) = false := by
        intro i; rw [hall i]; rfl
      have hnil : (List.finRange n).filter (fun i => invoked (s.procs i)) = [] :=
        List.filter_eq_nil_iff.mpr fun i _ => by simp [hfalse i]
      rw [hnil]
      simp
    · intro i out hout
      rw [hall i] at hout
      exact absurd hout (by simp)
  · have hpj : invoked (s.procs j) = true := by
      rcases hj with ⟨_, hpj⟩ | ⟨_, hpj⟩ <;> rw [hpj] <;> rfl
    have honly : ∀ i, invoked (s.procs i) = true → i = j := by
      intro i hi
      by_contra hij
      rcases hothers i hij with h | ⟨out, hout, _⟩
      · rw [h] at hi; exact absurd hi (by simp [invoked])
      · rw [hout] at hi; exact absurd hi (by simp [invoked])
    constructor
    · unfold execCount
      refine nodup_all_eq_length_le _ j ?_ ?_
      · exact (List.nodup_finRange n).filter _
      · intro x hx
        rw [List.mem_filter] at hx
        exact honly x hx.2
    · intro i out hout
      by_cases hij : i = j
      · subst hij
        rcases hj with ⟨_, hpj'⟩ | ⟨_, hpj'⟩ <;> rw [hpj'] at hout <;> cases hout
      · rcases hothers i hij with h | ⟨out', hout', hok'⟩
        · rw [h] at hout; cases hout
        · rw [hout'] at hout
          cases hout
          exact ⟨j, hpj, hij, hok'⟩

/-- Witness for C1: two interleaved dispatches with the same key and
distinct nonces, scheduled claim–claim–finalize–finalize, invoke the
executor at most once. -/
theorem C1_at_most_once_witness :
    execCount (runTrace Wit.wexec Wit.wmarshal Wit.winps
      [(0 : Fin 2), 1, 0, 1]) ≤ 1 :=
  (C1_at_most_once Wit.wexec Wit.wmarshal Wit.winps (str "kk")
    (by decide) (by decide) (by decide) [(0 : Fin 2), 1, 0, 1]).1

/-- Witness for C6: a previous completed record with nonce `m0` against a
fresh attempt with nonce `n1` routes the dispatch to the replay path. -/
theorem C6_nonce_self_echo_witness :
    handleGmRequest Wit.wexec Wit.wmarshal memStore Wit.wnonce Wit.wmemDone Wit.wreq =
      ⟨Wit.wmemDone,
        (previousResponse Wit.wreq Wit.woldDone : DispResp Str × Option GmErrorResponse).1,
        (previousResponse Wit.wreq Wit.woldDone : DispResp Str × Option GmErrorResponse).2,
        false⟩ :=
  (C6_nonce_self_echo memStore Wit.wexec Wit.wmarshal Wit.wnonce Wit.wmemDone Wit.wreq
    (by decide) Wit.wmemDone (encRec Wit.woldDone) (some Wit.woldDone)
    (by decide)
    (by simp [parseOldRecord, encRec_ne_nil, decRec_encRec])).2
    Wit.woldDone rfl (by decide)

/-- Witness for C2: a pending previous record yields the
`IdempotencyConflict` error without execution. -/
theorem C2_replay_path_witness :
    handleGmRequest Wit.wexec Wit.wmarshal memStore Wit.wnonce Wit.wmemPending Wit.wreq =
      ⟨Wit.wmemPending, .bytes none, some ⟨GmError_IdempotencyConflict,
        str "previous request is not completed", false⟩, false⟩ :=
  (C2_replay_path memStore Wit.wexec Wit.wmarshal Wit.wnonce Wit.wmemPending Wit.wreq
    (by decide) Wit.wmemPending (encRec Wit.woldPending) Wit.woldPending
    (by decide) (encRec_ne_nil Wit.woldPending) (decRec_encRec Wit.woldPending)
    (by decide)).2.1 rfl

/-- Witness for C7: a store whose `SetXX` always fails produces the same
response and error as the plain in-memory store. -/
theorem C7_finalize_fail_open_witness :
    (handleGmRequest Wit.wexec Wit.wmarshal Wit.failStore Wit.wnonce [] Wit.wreq).resp =
      .bytes (Wit.wmarshal (Wit.wexec Wit.wreq).1) ∧
    (handleGmRequest Wit.wexec Wit.wmarshal Wit.failStore Wit.wnonce [] Wit.wreq).err =
      (Wit.wexec Wit.wreq).2 ∧
    (handleGmRequest Wit.wexec Wit.wmarshal Wit.failStore Wit.wnonce [] Wit.wreq).resp =
      (handleGmRequest Wit.wexec Wit.wmarshal memStore Wit.wnonce [] Wit.wreq).resp ∧
    (handleGmRequest Wit.wexec Wit.wmarshal Wit.failStore Wit.wnonce [] Wit.wreq).err =
      (handleGmRequest Wit.wexec Wit.wmarshal memStore Wit.wnonce [] Wit.wreq).err :=
  C7_finalize_fail_open Wit.failStore memStore Wit.wexec Wit.wmarshal Wit.wnonce
    [] [] Wit.wreq (by decide)
    [(Wit.wreq.idempotencyKey, encRec (initialRecord Wit.wnonce Wit.wreq))]
    [(Wit.wreq.idempotencyKey, encRec (initialRecord Wit.wnonce Wit.wreq))]
    (by decide) (by decide) (str "store unavailable") (by decide)

/-- Witness for C10: the first dispatch returns the serialized bytes, and a
second dispatch with a fresh nonce replays them byte-identically. -/
theorem C10_serialized_outcome_witness :
    (handleGmRequest Wit.wexec Wit.wmarshal memStore Wit.wnonce [] Wit.wreq).resp =
      .bytes (Wit.wmarshal (Wit.wexec Wit.wreq).1) ∧
    ((handleGmRequest Wit.wexec Wit.wmarshal memStore Wit.wnonce2
        (handleGmRequest Wit.wexec Wit.wmarshal memStore Wit.wnonce [] Wit.wreq).store
        Wit.wreq).resp =
      (handleGmRequest Wit.wexec Wit.wmarshal memStore Wit.wnonce [] Wit.wreq).resp ∧
     (handleGmRequest Wit.wexec Wit.wmarshal memStore Wit.wnonce2
        (handleGmRequest Wit.wexec Wit.wmarshal memStore Wit.wnonce [] Wit.wreq).store
        Wit.wreq).err =
      (handleGmRequest Wit.wexec Wit.wmarshal memStore Wit.wnonce [] Wit.wreq).err ∧
     (handleGmRequest Wit.wexec Wit.wmarshal memStore Wit.wnonce2
        (handleGmRequest Wit.wexec Wit.wmarshal memStore Wit.wnonce [] Wit.wreq).store
        Wit.wreq).executed = false) :=
  ⟨(C10_serialized_outcome memStore Wit.wexec Wit.wmarshal Wit.wnonce [] Wit.wreq
      (by decide) [(Wit.wreq.idempotencyKey, encRec (initialRecord Wit.wnonce Wit.wreq))]
      (by decide)).1.1,
   (C10_serialized_outcome memStore Wit.wexec Wit.wmarshal Wit.wnonce [] Wit.wreq
      (by decide) [(Wit.wreq.idempotencyKey, encRec (initialRecord Wit.wnonce Wit.wreq))]
      (by decide)).2 Wit.wnonce2 (by decide)⟩

/-! ## Timestamp rendering round-trip -/

theorem val2_digits (n : Nat) (h : n < 100) :
    val2 (digitChar (n / 10)) (digitChar n) = some n := by
  simp only [val2, digitVal_digitChar]
  congr 1
  omega

theorem val4_digits (n : Nat) (h : n < 10000) :
    val4 (digitChar (n / 1000)) (digitChar (n / 100)) (digitChar (n / 10))
      (digitChar n) = some n := by
  simp only [val4, val2, digitVal_digitChar]
  congr 1
  omega

theorem daysInMonth_le (y m : Nat) : daysInMonth y m ≤ 31 := by
  unfold daysInMonth
  split
  · split <;> omega
  · split <;> omega

theorem formatTimestamp_explicit (y mo d h mi s : Nat) :
    formatTimestamp ⟨y, mo, d, h, mi, s⟩ =
      [digitChar (y / 1000), digitChar (y / 100), digitChar (y / 10), digitChar y,
       digitChar (mo / 10), digitChar mo, digitChar (d / 10), digitChar d, 'T',
       digitChar (h / 10), digitChar h, digitChar (mi / 10), digitChar mi,
       digitChar (s / 10), digitChar s, 'Z'] := rfl

theorem parseTimestamp_format (t : GoTime) (ht : ValidTime t) :
    parseTimestamp (formatTimestamp t) = some t := by
  obtain ⟨y, mo, d, h, mi, s⟩ := t
  simp only [ValidTime] at ht
  obtain ⟨hy1, hy2, hm1, hm2, hd1, hd2, hh, hmi, hs⟩ := ht
  have hd99 : d < 100 :=
    lt_of_le_of_lt hd2 (lt_of_le_of_lt (daysInMonth_le y mo) (by norm_num))
  rw [formatTimestamp_explicit]
  simp only [parseTimestamp]
  rw [if_pos (by trivial)]
  simp only [val4_digits y (by omega), val2_digits mo (by omega),
    val2_digits d (by omega), val2_digits h (by omega),
    val2_digits mi (by omega), val2_digits s (by omega)]
  rw [if_pos ⟨hm1, hm2, hd1, hd2, hh, hmi, hs⟩]

theorem formatTimestamp_good (t : GoTime) : ∀ c ∈ formatTimestamp t, goodChar c := by
  obtain ⟨y, mo, d, h, mi, s⟩ := t
  intro c hc
  rw [formatTimestamp_explicit] at hc
  simp only [List.mem_cons, List.not_mem_nil, or_false] at hc
  rcases hc with rfl|rfl|rfl|rfl|rfl|rfl|rfl|rfl|rfl|rfl|rfl|rfl|rfl|rfl|rfl|rfl <;>
    first
      | exact digitChar_good _
      | decide

/-! ## Theorems for claims C5, C4, C9, C3 -/

/-- **C5 counterexample** — the claim names the first authorization
parameter `Principal`, but the header the signer writes carries `Game`: at a
concrete request, key, game id and timestamp the produced header differs
from the claimed `Principal=` layout. -/
theorem C5_counterexample :
    (signHttp Wit.wsha Wit.whmac (str "secret") (str "g1")
        ⟨str "POST", str "/v1/ping", none, none⟩ ⟨2024, 1, 1, 0, 0, 0⟩).authz ≠
      some (signingAlgorithm ++ str " Principal=" ++ str "g1" ++ str ",Timestamp=" ++
        getTimestamp ⟨2024, 1, 1, 0, 0, 0⟩ ++ str ",Signature=" ++
        computeSignature Wit.whmac (str "secret")
          (buildStringToSign Wit.wsha ⟨str "POST", str "/v1/ping", none, none⟩
            (getTimestamp ⟨2024, 1, 1, 0, 0, 0⟩))) := by
  decide

/-- **C5 (amended)** — Wire format: for every request it signs, `SignHttp`
sets the `Authorization` header to exactly
`<ALG> Game=<id>,Timestamp=<ts>,Signature=<sig>` — the fixed algorithm
identifier, one space, then the three `key=value` parameters joined by
commas with no space after the commas — where `<id>` is the configured
game (principal) identifier, `<ts>` the UTC timestamp rendered as
`YYYYMMDDThhmmssZ` (`getTimestamp`), and `<sig>` the lowercase-hex
HMAC-SHA256 signature. -/
theorem C5_wire_format (sha256Sum : Str → List (Fin 256))
    (hmacSha256 : Str → Str → List (Fin 256))
    (key game : Str) (r : HttpRequest) (t : GoTime) :
    (signHttp sha256Sum hmacSha256 key game r t).authz =
      some (signingAlgorithm ++ str " Game=" ++ game ++ str ",Timestamp=" ++
        getTimestamp t ++ str ",Signature=" ++
        computeSignature hmacSha256 key
          (buildStringToSign sha256Sum r (getTimestamp t))) ∧
    (∀ c ∈ computeSignature hmacSha256 key
        (buildStringToSign sha256Sum r (getTimestamp t)),
      c ∈ str "0123456789abcdef") :=
  ⟨rfl, hexEncode_mem _⟩

/-- **C4** — Clock window: given a parseable `Authorization` header with the
correct scheme, `AuthHttp` fails with the clock-skew error if and only if
the absolute difference between the current time and the parsed timestamp
exceeds 5 minutes (300 seconds) — so a skew of exactly 5 minutes is
accepted and one of 5 minutes 1 second rejected — and the window is
symmetric in the two instants. -/
theorem C4_clock_window (sha256Sum : Str → List (Fin 256))
    (hmacSha256 : Str → Str → List (Fin 256))
    (key game : Str) (r : HttpRequest) (t2 : GoTime) (auth : Authorization)
    (hparse : parseAuthorizationHeader (headerGet r) = .ok auth)
    (hscheme : auth.scheme = signingAlgorithm) :
    (authHttp sha256Sum hmacSha256 key game r t2 = some .clockSkew ↔
      maxTimeDiffSecs < timeDiffSecs t2 auth.timestamp) ∧
    (∀ ta tb : GoTime, timeDiffSecs ta tb = timeDiffSecs tb ta) := by
  constructor
  · unfold authHttp
    simp only [hparse]
    have h1 : ¬auth.scheme ≠ signingAlgorithm := by rw [hscheme]; simp
    rw [if_neg h1]
    by_cases hσ : maxTimeDiffSecs < timeDiffSecs t2 auth.timestamp
    · rw [if_pos hσ]
      simp [hσ]
    · rw [if_neg hσ]
      simp only [hσ, iff_false]
      intro h
      by_cases hg : auth.game ≠ game
      · rw [if_pos hg] at h
        exact absurd h (by decide)
      · rw [if_neg hg] at h
        by_cases hsig : auth.signature ≠ computeSignature hmacSha256 key
            (buildStringToSign sha256Sum r (getTimestamp auth.timestamp))
        · rw [if_pos hsig] at h
          exact absurd h (by decide)
        · rw [if_neg hsig] at h
          exact absurd h (by decide)
  · intro ta tb
    unfold timeDiffSecs
    omega

/-- Witness for C4 at the spec's boundary scenario: a header stamped
2024-01-01T00:00:00Z verified at 00:05:01 fails with clock skew, and at
00:05:00 does not. -/
theorem C4_clock_window_witness :
    authHttp Wit.wsha Wit.whmac (str "secret") (str "g1") Wit.wauthReq
      ⟨2024, 1, 1, 0, 5, 1⟩ = some .clockSkew ∧
    authHttp Wit.wsha Wit.whmac (str "secret") (str "g1") Wit.wauthReq
      ⟨2024, 1, 1, 0, 5, 0⟩ ≠ some .clockSkew :=
  ⟨(C4_clock_window Wit.wsha Wit.whmac (str "secret") (str "g1") Wit.wauthReq
      ⟨2024, 1, 1, 0, 5, 1⟩ Wit.wauth (by rfl) rfl).1.mpr (by decide),
   fun h => absurd ((C4_clock_window Wit.wsha Wit.whmac (str "secret") (str "g1")
      Wit.wauthReq ⟨2024, 1, 1, 0, 5, 0⟩ Wit.wauth (by rfl) rfl).1.mp h)
     (by decide)⟩

/-! ## Strict parameter split (claim C9) -/

theorem applyParam_multi_eq (auth : Authorization) (p : Str)
    (h2 : 2 ≤ p.count '=') : applyParam auth p = .error .invalidParameters := by
  have hlen : (splitOnChar '=' p).length = p.count '=' + 1 := length_splitOnChar _ _
  unfold applyParam
  cases hs : splitOnChar '=' p with
  | nil => rfl
  | cons a rest =>
    cases rest with
    | nil => rfl
    | cons b rest2 =>
      cases rest2 with
      | nil =>
        rw [hs] at hlen
        simp at hlen
        omega
      | cons c rest3 => rfl

theorem applyParam_error_cases (auth : Authorization) (p : Str) (e : AuthError)
    (h : applyParam auth p = .error e) :
    e = .invalidParameters ∨ e = .invalidTimestamp := by
  unfold applyParam at h
  cases hs : splitOnChar '=' p with
  | nil => rw [hs] at h; cases h; left; rfl
  | cons a rest =>
    cases rest with
    | nil => rw [hs] at h; cases h; left; rfl
    | cons b rest2 =>
      cases rest2 with
      | cons c r3 => rw [hs] at h; cases h; left; rfl
      | nil =>
        rw [hs] at h
        dsimp only at h
        by_cases h1 : trimChars [' '] a = str "Game"
        · rw [if_pos h1] at h
          cases h
        · rw [if_neg h1] at h
          by_cases hts : trimChars [' '] a = str "Timestamp"
          · rw [if_pos hts] at h
            cases hp : parseTimestamp (trimChars [' ', '"'] b) with
            | none => rw [hp] at h; cases h; right; rfl
            | some t => rw [hp] at h; cases h
          · rw [if_neg hts] at h
            by_cases hsg : trimChars [' '] a = str "Signature"
            · rw [if_pos hsg] at h
              cases h
            · rw [if_neg hsg] at h
              cases h

theorem foldParams_error_of_multi (params : List Str) (auth : Authorization)
    (h : ∃ p ∈ params, 2 ≤ p.count '=') :
    ∃ e, foldParams auth params = .error e ∧
      (e = .invalidParameters ∨ e = .invalidTimestamp) := by
  induction params generalizing auth with
  | nil => simp at h
  | cons q qs ih =>
    obtain ⟨p, hp, hc⟩ := h
    rcases List.mem_cons.mp hp with rfl | hp'
    · refine ⟨.invalidParameters, ?_, Or.inl rfl⟩
      unfold foldParams
      rw [applyParam_multi_eq auth p hc]
    · cases happ : applyParam auth q with
      | error e =>
        refine ⟨e, ?_, applyParam_error_cases auth q e happ⟩
        unfold foldParams
        rw [happ]
      | ok a =>
        obtain ⟨e, he, hcase⟩ := ih a ⟨p, hp', hc⟩
        refine ⟨e, ?_, hcase⟩
        unfold foldParams
        rw [happ]
        exact he

theorem foldParams_prefix_invalid (pre : List Str) (bad : Str) (rest : List Str)
    (auth : Authorization) (hbad : 2 ≤ bad.count '=')
    (hpre : ∀ p ∈ pre, ∀ a, ∃ a', applyParam a p = .ok a') :
    foldParams auth (pre ++ bad :: rest) = .error .invalidParameters := by
  induction pre generalizing auth with
  | nil =>
    rw [List.nil_append]
    unfold foldParams
    rw [applyParam_multi_eq auth bad hbad]
  | cons q qs ih =>
    obtain ⟨a', ha'⟩ := hpre q (List.mem_cons_self _ _) auth
    rw [List.cons_append]
    unfold foldParams
    rw [ha']
    apply ih
    intro p hp a
    exact hpre p (List.mem_cons_of_mem _ hp) a

/-- **C9 counterexample** — the implicit claim says a header in which some
parameter's value contains `=` makes `AuthHttp` fail with the
invalid-parameters error; at a concrete header whose first segment carries a
malformed timestamp before such a `=`-containing value, `AuthHttp` fails
with the invalid-timestamp error instead. -/
theorem C9_counterexample :
    (∃ p ∈ splitOnChar ',' ((headerGet Wit.wbadReq).drop 18), 2 ≤ p.count '=') ∧
    authHttp Wit.wsha Wit.whmac (str "secret") (str "g1") Wit.wbadReq
      ⟨2024, 1, 1, 0, 0, 0⟩ ≠ some .invalidParameters ∧
    authHttp Wit.wsha Wit.whmac (str "secret") (str "g1") Wit.wbadReq
      ⟨2024, 1, 1, 0, 0, 0⟩ = some .invalidTimestamp := by
  refine ⟨⟨str "Signature=a=b", by decide, by decide⟩, by decide, by decide⟩

/-- **C9 (amended)** — Strict parameter split: authorization-header parsing
splits each comma-separated segment on every `=` and rejects any segment
without exactly one `=`; consequently, whenever some segment's value itself
contains `=`, `AuthHttp` fails with a header-parse error (the
invalid-parameters or invalid-timestamp error, never reaching scheme,
clock, principal or signature verification); in particular, it fails with
the invalid-parameters error when every segment before the offending one
parses cleanly. -/
theorem C9_strict_param_split (sha256Sum : Str → List (Fin 256))
    (hmacSha256 : Str → Str → List (Fin 256))
    (key game : Str) (r : HttpRequest) (t2 : GoTime) (i : Nat)
    (hne : headerGet r ≠ [])
    (hidx : indexOfChar ' ' (headerGet r) = some i)
    (hbad : ∃ p ∈ splitOnChar ',' ((headerGet r).drop i), 2 ≤ p.count '=') :
    (∃ e, parseAuthorizationHeader (headerGet r) = .error e ∧
      authHttp sha256Sum hmacSha256 key game r t2 = some e ∧
      (e = .invalidParameters ∨ e = .invalidTimestamp)) ∧
    (∀ pre bad rest, splitOnChar ',' ((headerGet r).drop i) = pre ++ bad :: rest →
      2 ≤ bad.count '=' →
      (∀ p ∈ pre, ∀ a, ∃ a', applyParam a p = .ok a') →
      authHttp sha256Sum hmacSha256 key game r t2 = some .invalidParameters) := by
  have hfold : ∀ e, foldParams ⟨(headerGet r).take i, [], zeroTime, []⟩
      (splitOnChar ',' ((headerGet r).drop i)) = .error e →
      parseAuthorizationHeader (headerGet r) = .error e := by
    intro e he
    unfold parseAuthorizationHeader
    rw [if_neg hne]
    simp only [hidx]
    exact he
  constructor
  · obtain ⟨e, he, hcase⟩ := foldParams_error_of_multi _
      ⟨(headerGet r).take i, [], zeroTime, []⟩ hbad
    have hp := hfold e he
    refine ⟨e, hp, ?_, hcase⟩
    unfold authHttp
    simp only [hp]
  · intro pre bad rest hsplit hbadcount hpre
    have he : foldParams ⟨(headerGet r).take i, [], zeroTime, []⟩
        (splitOnChar ',' ((headerGet r).drop i)) = .error .invalidParameters := by
      rw [hsplit]
      exact foldParams_prefix_invalid pre bad rest _ hbadcount hpre
    have hp := hfold _ he
    unfold authHttp
    simp only [hp]

/-- Witness for C9 (amended): on the counterexample header the segment
before the `=`-containing one carries a malformed timestamp, so the parse
error the theorem guarantees surfaces as invalid-timestamp. -/
theorem C9_strict_param_split_witness :
    parseAuthorizationHeader (headerGet Wit.wbadReq) = .error .invalidTimestamp ∧
    authHttp Wit.wsha Wit.whmac (str "secret") (str "g1") Wit.wbadReq
      ⟨2024, 1, 1, 0, 0, 0⟩ = some .invalidTimestamp := by
  obtain ⟨e, hp, ha, hcase⟩ :=
    (C9_strict_param_split Wit.wsha Wit.whmac (str "secret") (str "g1")
      Wit.wbadReq ⟨2024, 1, 1, 0, 0, 0⟩ 18 (by decide) (by decide)
      ⟨str "Signature=a=b", by decide, by decide⟩).1
  rcases hcase with rfl | rfl
  · rw [show parseAuthorizationHeader (headerGet Wit.wbadReq) =
        Except.error AuthError.invalidTimestamp from rfl] at hp
    simp at hp
  · exact ⟨hp, ha⟩

/-! ## Round-trip signing (claim C3) -/

theorem applyParam_game (auth : Authorization) (game : Str)
    (hg : ∀ c ∈ game, goodChar c) :
    applyParam auth (' ' :: (str "Game=" ++ game)) = .ok { auth with game := game } := by
  have hsh : (' ' :: (str "Game=" ++ game)) = (' ' :: str "Game") ++ ('=' :: game) := rfl
  have hng : ('=' : Char) ∉ game := fun hm => ((hg _ hm).2.1 rfl)
  have hv : trimChars [' ', '"'] game = game :=
    trimChars_eq_self (fun x hx => by
      rcases hg x hx with ⟨h1, h2, h3, h4⟩
      simp [h3, h4])
  unfold applyParam
  rw [hsh, splitOnChar_append (by decide), splitOnChar_not_mem hng]
  dsimp only
  rw [show trimChars [' '] (' ' :: str "Game") = str "Game" from by decide, hv]
  rw [if_pos rfl]

theorem applyParam_timestamp (auth : Authorization) (ts : Str) (t : GoTime)
    (hts : ∀ c ∈ ts, goodChar c) (hp : parseTimestamp ts = some t) :
    applyParam auth (str "Timestamp=" ++ ts) = .ok { auth with timestamp := t } := by
  have hsh : (str "Timestamp=" ++ ts) = (str "Timestamp") ++ ('=' :: ts) := rfl
  have hng : ('=' : Char) ∉ ts := fun hm => ((hts _ hm).2.1 rfl)
  have hv : trimChars [' ', '"'] ts = ts :=
    trimChars_eq_self (fun x hx => by
      rcases hts x hx with ⟨h1, h2, h3, h4⟩
      simp [h3, h4])
  unfold applyParam
  rw [hsh, splitOnChar_append (by decide), splitOnChar_not_mem hng]
  dsimp only
  rw [show trimChars [' '] (str "Timestamp") = str "Timestamp" from by decide, hv]
  rw [if_neg (by decide), if_pos rfl, hp]

theorem applyParam_signature (auth : Authorization) (sig : Str)
    (hsig : ∀ c ∈ sig, goodChar c) :
    applyParam auth (str "Signature=" ++ sig) = .ok { auth with signature := sig } := by
  have hsh : (str "Signature=" ++ sig) = (str "Signature") ++ ('=' :: sig) := rfl
  have hng : ('=' : Char) ∉ sig := fun hm => ((hsig _ hm).2.1 rfl)
  have hv : trimChars [' ', '"'] sig = sig :=
    trimChars_eq_self (fun x hx => by
      rcases hsig x hx with ⟨h1, h2, h3, h4⟩
      simp [h3, h4])
  unfold applyParam
  rw [hsh, splitOnChar_append (by decide), splitOnChar_not_mem hng]
  dsimp only
  rw [show trimChars [' '] (str "Signature") = str "Signature" from by decide, hv]
  rw [if_neg (by decide), if_neg (by decide), if_pos rfl]

/-- The header the signer builds parses back to exactly the scheme, game,
timestamp and signature it was built from. -/
theorem parse_built_header (game ts sig : Str) (t : GoTime)
    (hg : ∀ c ∈ game, goodChar c) (hts : ∀ c ∈ ts, goodChar c)
    (hsig : ∀ c ∈ sig, goodChar c) (htparse : parseTimestamp ts = some t) :
    parseAuthorizationHeader (buildAuthorizationHeader game ts sig) =
      .ok ⟨signingAlgorithm, game, t, sig⟩ := by
  have h1 : buildAuthorizationHeader game ts sig =
      signingAlgorithm ++ ' ' :: (str "Game=" ++ (game ++ (str ",Timestamp=" ++
        (ts ++ (str ",Signature=" ++ sig))))) := by
    unfold buildAuthorizationHeader
    simp only [List.append_assoc]
    rfl
  have hc1 : (',' : Char) ∉ (' ' :: (str "Game=" ++ game)) := by
    intro hm
    rcases List.mem_cons.mp hm with h | h
    · exact absurd h (by decide)
    · rcases List.mem_append.mp h with h | h
      · exact absurd h (by decide)
      · exact ((hg _ h).1 rfl)
  have hc2 : (',' : Char) ∉ (str "Timestamp=" ++ ts) := by
    intro hm
    rcases List.mem_append.mp hm with h | h
    · exact absurd h (by decide)
    · exact ((hts _ h).1 rfl)
  have hc3 : (',' : Char) ∉ (str "Signature=" ++ sig) := by
    intro hm
    rcases List.mem_append.mp hm with h | h
    · exact absurd h (by decide)
    · exact ((hsig _ h).1 rfl)
  rw [h1]
  unfold parseAuthorizationHeader
  rw [if_neg (by simp [signingAlgorithm, str])]
  rw [indexOfChar_append (by decide)]
  dsimp only
  rw [List.take_left, List.drop_left]
  have h2 : (' ' :: (str "Game=" ++ (game ++ (str ",Timestamp=" ++
      (ts ++ (str ",Signature=" ++ sig)))))) =
      (' ' :: (str "Game=" ++ game)) ++ (',' :: ((str "Timestamp=" ++ ts) ++
        (',' :: (str "Signature=" ++ sig)))) := by
    simp only [List.append_assoc, List.cons_append]
    rfl
  rw [h2, splitOnChar_append hc1, splitOnChar_append hc2, splitOnChar_not_mem hc3]
  simp only [foldParams, applyParam_game _ _ hg, applyParam_timestamp _ _ _ hts htparse,
    applyParam_signature _ _ hsig]

/-- **C3** — Round-trip signing: for every request (with replayable body),
secret key, game id and timestamps `t`, `t2`, if the signer applies
`SignHttp(request, t)` and a verifier configured with the same key and same
game id runs `AuthHttp` on the signed request at `t2` with `|t2 − t|` at
most 5 minutes, verification succeeds (returns `nil`).  The game id must
not contain comma, equals, space or double-quote characters (which the
header syntax cannot carry), and `t` must be a civil timestamp `Format` can
render in four year digits. -/
theorem C3_round_trip (sha256Sum : Str → List (Fin 256))
    (hmacSha256 : Str → Str → List (Fin 256))
    (key game : Str) (r : HttpRequest) (t t2 : GoTime)
    (hg : ∀ c ∈ game, goodChar c) (ht : ValidTime t)
    (hdiff : timeDiffSecs t2 t ≤ maxTimeDiffSecs) :
    authHttp sha256Sum hmacSha256 key game
      (signHttp sha256Sum hmacSha256 key game r t) t2 = none := by
  have hts : ∀ c ∈ getTimestamp t, goodChar c := formatTimestamp_good t
  have hsig : ∀ c ∈ computeSignature hmacSha256 key
      (buildStringToSign sha256Sum r (getTimestamp t)), goodChar c :=
    hexEncode_good _
  have htparse : parseTimestamp (getTimestamp t) = some t := parseTimestamp_format t ht
  have hhdr : headerGet (signHttp sha256Sum hmacSha256 key game r t) =
      buildAuthorizationHeader game (getTimestamp t)
        (computeSignature hmacSha256 key (buildStringToSign sha256Sum r (getTimestamp t))) :=
    rfl
  unfold authHttp
  rw [hhdr, parse_built_header game _ _ t hg hts hsig htparse]
  dsimp only
  rw [if_neg (by simp)]
  rw [if_neg (Nat.not_lt.mpr hdiff)]
  rw [if_neg (by simp)]
  have hsts : buildStringToSign sha256Sum
      (signHttp sha256Sum hmacSha256 key game r t) (getTimestamp t) =
      buildStringToSign sha256Sum r (getTimestamp t) := rfl
  rw [if_neg (by simp [hsts])]

/-- Witness for C3: the spec's end-to-end scenario — a `POST /v1/ping`
request signed at 2024-01-01T00:00:00Z verifies at 00:04:59Z. -/
theorem C3_round_trip_witness :
    authHttp Wit.wsha Wit.whmac (str "secret") (str "g1") Wit.wsignedReq
      ⟨2024, 1, 1, 0, 4, 59⟩ = none :=
  C3_round_trip Wit.wsha Wit.whmac (str "secret") (str "g1")
    ⟨str "POST", str "/v1/ping", some (str "body"), none⟩
    ⟨2024, 1, 1, 0, 0, 0⟩ ⟨2024, 1, 1, 0, 4, 59⟩
    (by decide) (by decide) (by decide)

end ComboSdk
